import Mathlib

/-!
Shallow embedding of the arena allocator in `arena.h` (types `Chunk` and
`Arena`; functions `chunk_init`, `arinit`, `aralloc`, `arreset`), together
with proofs about its behavior.

Modelling conventions:
* `size_t` values are `Nat` reduced modulo `USIZE = 2^64` exactly where the
  C arithmetic can wrap (additions, the doubling, the alignment macro).
* The chunk chain (`head` + `next` links) is the list `Arena.chunks`, in
  chain order starting at `head`; `Arena.currIdx` is the position of the C
  field `arena->curr` within that chain.  Setting `curr->next` to a freshly
  created chunk is `take (currIdx+1) ++ [new]`: any chunks that hung off the
  old `next` pointer become unreachable from the arena, exactly as in C.
* `malloc`/`mmap` outcomes are an explicit parameter `mem : Option Nat`:
  `none` means the OS refused (malloc or mmap failure inside `chunk_init`),
  `some base` means success and the mapping was placed at address `base`.
  mmap on POSIX returns page-aligned addresses, which is the side condition
  `PAGE_SIZE ∣ base` carried by the reachability relation.
* `Arena.created` is a ghost counter of how many chunks were ever
  successfully created for this arena (`chunk_init` successes); it exists
  only to state "no new region is created" claims and influences nothing.
-/

namespace Aralloc

/-- Width of `size_t` on the POSIX targets the code supports: 2^64. -/
def USIZE : Nat := 2 ^ 64

/-- C: `#define PAGE_SIZE 4096`. -/
def PAGE_SIZE : Nat := 4096

/-- C: `#define AR_ALIGN 16`. -/
def AR_ALIGN : Nat := 16

/-- C: `#define AR_ALIGN_UP(n) (((n) + AR_ALIGN -1) & ~(AR_ALIGN - 1))`,
on `size_t`: the sum wraps modulo `2^64` and `~(AR_ALIGN-1)` is the 64-bit
mask `2^64 - 16`. -/
def AR_ALIGN_UP (n : Nat) : Nat :=
  ((n + (AR_ALIGN - 1)) % USIZE) &&& (USIZE - AR_ALIGN)

/-- The enum constant `AR_FIXED` (first enumerator, value 0).  The enum's
underlying integer type can hold other values, so `ArenaType` arguments are
modelled as plain numbers. -/
def AR_FIXED : Nat := 0

/-- The enum constant `AR_DYNAMIC` (second enumerator, value 1). -/
def AR_DYNAMIC : Nat := 1

/-- C `struct Chunk`.  The `next` pointer is represented by the position in
`Arena.chunks` instead of a field. -/
structure Chunk where
  memory : Nat
  capacity : Nat
  offset : Nat
  deriving Repr, DecidableEq, Inhabited

/-- C `struct Arena`; `chunks` is the chain reachable from `head`, and
`currIdx` locates `curr` in it.  `created` is a ghost chunk-creation
counter (see module docstring). -/
structure Arena where
  type : Nat
  chunks : List Chunk
  currIdx : Nat
  created : Nat
  deriving Repr, DecidableEq, Inhabited

/-- C `chunk_init`: rejects invalid types, then `malloc`s the chunk struct
and `mmap`s `size` bytes; both fallible steps are folded into `mem`.  On
success the chunk has `capacity = size`, `offset = 0`, `next = NULL`. -/
def chunk_init (ty : Nat) (size : Nat) (mem : Option Nat) : Option Chunk :=
  if ty ≠ AR_FIXED ∧ ty ≠ AR_DYNAMIC then none
  else
    match mem with
    | none => none
    | some base => some { memory := base, capacity := size, offset := 0 }

/-- C `arinit`: rejects invalid types, picks `PAGE_SIZE * 16` for
`AR_FIXED` and `PAGE_SIZE` for `AR_DYNAMIC`, creates the initial chunk and
sets `head = curr` to it.  (The `malloc` of the `Arena` struct itself is
not modelled as fallible; no claim depends on it.) -/
def arinit (ty : Nat) (mem : Option Nat) : Option Arena :=
  if ty ≠ AR_FIXED ∧ ty ≠ AR_DYNAMIC then none
  else
    let init_size := if ty = AR_FIXED then PAGE_SIZE * 16 else PAGE_SIZE
    match chunk_init ty init_size mem with
    | none => none
    | some c => some { type := ty, chunks := [c], currIdx := 0, created := 1 }

/-- C `aralloc`.  Returns the pointer (or `none` for C `NULL`) plus the
arena after the call.  `size_t` additions are reduced mod `USIZE`; the
bounds check `curr->offset + size <= curr->capacity` therefore compares the
wrapped sum, as the C does.  A live arena always has a current chunk, so
the `none` row of the `match` is dead code for reachable arenas. -/
def aralloc (a : Arena) (size0 : Nat) (mem : Option Nat) : Option Nat × Arena :=
  let size := AR_ALIGN_UP size0
  match a.chunks[a.currIdx]? with
  | none => (none, a)
  | some curr =>
    if (curr.offset + size) % USIZE ≤ curr.capacity then
      let ptr := (curr.memory + curr.offset) % USIZE
      (some ptr,
       { a with chunks := a.chunks.set a.currIdx
                  { curr with offset := (curr.offset + size) % USIZE } })
    else if a.type = AR_FIXED then (none, a)
    else if a.type = AR_DYNAMIC then
      let next_size0 := (curr.capacity * 2) % USIZE
      let next_size := if next_size0 < size then AR_ALIGN_UP size else next_size0
      match chunk_init AR_DYNAMIC next_size mem with
      | none => (none, a)
      | some c =>
        let ptr := (c.memory + c.offset) % USIZE
        (some ptr,
         { a with chunks := a.chunks.take (a.currIdx + 1) ++
                    [{ c with offset := (c.offset + size) % USIZE }],
                  currIdx := a.currIdx + 1,
                  created := a.created + 1 })
    else (none, a)

/-- C `arreset`: `AR_FIXED` rewinds only `head->offset`; `AR_DYNAMIC` walks
the chain rewinding every offset and points `curr` back at `head`. -/
def arreset (a : Arena) : Arena :=
  if a.type = AR_FIXED then
    { a with chunks :=
        match a.chunks with
        | [] => []
        | c :: rest => { c with offset := 0 } :: rest }
  else if a.type = AR_DYNAMIC then
    { a with chunks := a.chunks.map (fun c => { c with offset := 0 }),
             currIdx := 0 }
  else a

/-- Arena states reachable through the public API.  Chunk-creating steps
carry the POSIX mmap guarantee that the returned address is page-aligned. -/
inductive Reachable : Arena → Prop where
  | init (ty base : Nat) (a : Arena) :
      PAGE_SIZE ∣ base → arinit ty (some base) = some a → Reachable a
  | alloc (a : Arena) (n : Nat) (mem : Option Nat) :
      Reachable a → (∀ b, mem = some b → PAGE_SIZE ∣ b) →
      Reachable (aralloc a n mem).2
  | reset (a : Arena) : Reachable a → Reachable (arreset a)

/-- Per-chunk well-formedness maintained by every reachable state. -/
def ChunkInv (c : Chunk) : Prop :=
  c.offset ≤ c.capacity ∧ 16 ∣ c.offset ∧ PAGE_SIZE ∣ c.memory ∧
    c.capacity < USIZE

/-- Arena well-formedness maintained by every reachable state: `curr` is in
the chain, the type is a valid enumerator, fixed arenas own exactly one
chunk, every chunk is well formed, and chunks sitting beyond `curr`
(possible only after a reset of a grown dynamic arena) are rewound. -/
def ArenaInv (a : Arena) : Prop :=
  a.currIdx < a.chunks.length ∧
  (a.type = AR_FIXED ∨ a.type = AR_DYNAMIC) ∧
  (a.type = AR_FIXED → a.chunks.length = 1) ∧
  (∀ c ∈ a.chunks, ChunkInv c) ∧
  (∀ i, a.currIdx < i → ∀ c, a.chunks[i]? = some c → c.offset = 0)

/-- A freshly initialized `AR_FIXED` arena whose single 64KB chunk was
mapped at address 4096; concrete state used to exercise the theorems. -/
def arenaF0 : Arena := (arinit AR_FIXED (some 4096)).get!

/-- A freshly initialized `AR_DYNAMIC` arena whose single 4KB chunk was
mapped at address 4096; concrete state used to exercise the theorems. -/
def arenaD0 : Arena := (arinit AR_DYNAMIC (some 4096)).get!

/-! ### Arithmetic facts about the alignment macro -/

/-- Closed form of the 64-bit mask `& ~(AR_ALIGN - 1)`: for an in-range
`size_t` value it clears the low four bits. -/
theorem and_mask_eq_div (x : Nat) (hx : x < USIZE) :
    x &&& (USIZE - AR_ALIGN) = x / 16 * 16 := by
  have hmask : USIZE - AR_ALIGN = (2 ^ 60 - 1) <<< 4 := by decide
  have hdiv : x / 16 * 16 = (x >>> 4) <<< 4 := by
    rw [Nat.shiftRight_eq_div_pow, Nat.shiftLeft_eq]
  rw [hmask, hdiv]
  apply Nat.eq_of_testBit_eq
  intro i
  rw [Nat.testBit_and, Nat.testBit_shiftLeft, Nat.testBit_shiftLeft,
      Nat.testBit_shiftRight, Nat.testBit_two_pow_sub_one]
  by_cases h4 : 4 ≤ i
  · have hi : 4 + (i - 4) = i := by omega
    rw [hi]
    by_cases h64 : i < 64
    · have h60 : i - 4 < 60 := by omega
      simp [h4, h60]
    · have hb : x.testBit i = false := by
        apply Nat.testBit_lt_two_pow
        calc x < 2 ^ 64 := hx
          _ ≤ 2 ^ i := Nat.pow_le_pow_right (by norm_num) (by omega)
      simp [hb]
  · simp [h4]

/-- `AR_ALIGN_UP` always produces a multiple of 16 (even when the `size_t`
addition wraps). -/
theorem align_dvd (n : Nat) : 16 ∣ AR_ALIGN_UP n := by
  unfold AR_ALIGN_UP
  rw [and_mask_eq_div _ (Nat.mod_lt _ (by decide))]
  exact Nat.dvd_mul_left 16 _

/-- `AR_ALIGN_UP` output is an in-range `size_t` value. -/
theorem align_lt (n : Nat) : AR_ALIGN_UP n < USIZE :=
  lt_of_le_of_lt Nat.and_le_left (Nat.mod_lt _ (by decide))

/-- Closed form of `AR_ALIGN_UP` when the addition does not wrap. -/
theorem align_eq_of_no_wrap (n : Nat) (h : n + 15 < USIZE) :
    AR_ALIGN_UP n = (n + 15) / 16 * 16 := by
  have h15 : AR_ALIGN - 1 = 15 := rfl
  unfold AR_ALIGN_UP
  rw [h15, Nat.mod_eq_of_lt h, and_mask_eq_div _ h]

/-- Aligning an already aligned value changes nothing; the C growth path
applies `AR_ALIGN_UP` to a size it already aligned. -/
theorem align_idem (n : Nat) : AR_ALIGN_UP (AR_ALIGN_UP n) = AR_ALIGN_UP n := by
  obtain ⟨k, hk⟩ := align_dvd n
  have hlt := align_lt n
  have hU : USIZE = 18446744073709551616 := by norm_num [USIZE]
  have h15 : AR_ALIGN_UP n + 15 < USIZE := by omega
  rw [align_eq_of_no_wrap _ h15, hk]
  omega

/-- When `n` is in the top 15 values of `size_t`, the macro wraps and the
aligned size collapses to zero. -/
theorem align_wrap_zero (n : Nat) (h1 : USIZE - 15 ≤ n) (h2 : n < USIZE) :
    AR_ALIGN_UP n = 0 := by
  obtain ⟨k, hk⟩ := align_dvd n
  have hle : AR_ALIGN_UP n ≤ (n + (AR_ALIGN - 1)) % USIZE := Nat.and_le_left
  have hA : AR_ALIGN = 16 := rfl
  have hU : USIZE = 18446744073709551616 := by norm_num [USIZE]
  rw [hA, hU] at hle
  rw [hU] at h1 h2
  omega

/-! ### List helper -/

/-- Setting an index to the value it already holds is the identity. -/
theorem set_getElem?_same {α : Type} (l : List α) (i : Nat) (c : α)
    (h : l[i]? = some c) : l.set i c = l := by
  have hi : i < l.length := by
    by_contra hn
    rw [List.getElem?_eq_none (by omega)] at h
    exact Option.noConfusion h
  apply List.ext_getElem?
  intro j
  by_cases hj : j = i
  · subst hj
    rw [List.getElem?_set_self hi, h]
  · rw [List.getElem?_set_ne (by omega)]

/-! ### Branch characterizations of `aralloc` -/

/-- When the current chunk has room (in the wrapped `size_t` comparison the
C performs), `aralloc` bumps its offset and returns the old position. -/
theorem aralloc_fits (a : Arena) (n : Nat) (mem : Option Nat) (curr : Chunk)
    (hget : a.chunks[a.currIdx]? = some curr)
    (hfit : (curr.offset + AR_ALIGN_UP n) % USIZE ≤ curr.capacity) :
    aralloc a n mem =
      (some ((curr.memory + curr.offset) % USIZE),
       { a with chunks := a.chunks.set a.currIdx
                  { curr with offset := (curr.offset + AR_ALIGN_UP n) % USIZE } }) := by
  simp [aralloc, hget, hfit]

/-- When the current chunk lacks room and the arena is `AR_FIXED`,
`aralloc` fails and returns the arena unchanged. -/
theorem aralloc_fixed_full (a : Arena) (n : Nat) (mem : Option Nat) (curr : Chunk)
    (hget : a.chunks[a.currIdx]? = some curr)
    (hfit : ¬ (curr.offset + AR_ALIGN_UP n) % USIZE ≤ curr.capacity)
    (hty : a.type = AR_FIXED) :
    aralloc a n mem = (none, a) := by
  simp [aralloc, hget, hfit, hty]

/-- When the current chunk lacks room, the arena is `AR_DYNAMIC`, and the
OS refuses the new mapping, `aralloc` fails and returns the arena
unchanged. -/
theorem aralloc_dynamic_nomem (a : Arena) (n : Nat) (curr : Chunk)
    (hget : a.chunks[a.currIdx]? = some curr)
    (hfit : ¬ (curr.offset + AR_ALIGN_UP n) % USIZE ≤ curr.capacity)
    (hty : a.type = AR_DYNAMIC) :
    aralloc a n none = (none, a) := by
  have hne : a.type ≠ AR_FIXED := by rw [hty]; decide
  simp [aralloc, hget, hfit, hty, hne, chunk_init, AR_FIXED, AR_DYNAMIC]

/-- When the current chunk lacks room, the arena is `AR_DYNAMIC`, and the
OS grants a mapping at `b`, `aralloc` chains a fresh chunk of capacity
`max (curr.capacity * 2 mod 2^64) (aligned size)` after `curr` (dropping
whatever `curr->next` pointed to), moves `curr` forward, and allocates from
the new chunk. -/
theorem aralloc_dynamic_grow (a : Arena) (n : Nat) (b : Nat) (curr : Chunk)
    (hget : a.chunks[a.currIdx]? = some curr)
    (hfit : ¬ (curr.offset + AR_ALIGN_UP n) % USIZE ≤ curr.capacity)
    (hty : a.type = AR_DYNAMIC) :
    aralloc a n (some b) =
      (some (b % USIZE),
       { a with chunks := a.chunks.take (a.currIdx + 1) ++
                  [{ memory := b,
                     capacity := max ((curr.capacity * 2) % USIZE) (AR_ALIGN_UP n),
                     offset := AR_ALIGN_UP n }],
                currIdx := a.currIdx + 1,
                created := a.created + 1 }) := by
  have hne : a.type ≠ AR_FIXED := by rw [hty]; decide
  have hoff : (0 + AR_ALIGN_UP n) % USIZE = AR_ALIGN_UP n := by
    rw [Nat.zero_add]
    exact Nat.mod_eq_of_lt (align_lt n)
  have hcap : (if (curr.capacity * 2) % USIZE < AR_ALIGN_UP n
                then AR_ALIGN_UP (AR_ALIGN_UP n)
                else (curr.capacity * 2) % USIZE)
      = max ((curr.capacity * 2) % USIZE) (AR_ALIGN_UP n) := by
    by_cases hc : (curr.capacity * 2) % USIZE < AR_ALIGN_UP n
    · rw [if_pos hc, align_idem, Nat.max_eq_right (Nat.le_of_lt hc)]
    · rw [if_neg hc, Nat.max_eq_left (Nat.le_of_not_lt hc)]
  simp only [aralloc, hget, hfit, hty, hne, chunk_init, AR_FIXED, AR_DYNAMIC]
  simp [hoff, hcap, Nat.mod_eq_of_lt (align_lt n)]

/-! ### The invariant holds in every reachable state -/

theorem sixteen_dvd_USIZE : (16 : Nat) ∣ USIZE := by norm_num [USIZE]

theorem arenaInv_arinit (ty base : Nat) (a : Arena)
    (hb : PAGE_SIZE ∣ base) (h : arinit ty (some base) = some a) : ArenaInv a := by
  unfold arinit chunk_init at h
  by_cases hty : ty ≠ AR_FIXED ∧ ty ≠ AR_DYNAMIC
  · rw [if_pos hty] at h
    exact Option.noConfusion h
  · simp only [if_neg hty, Option.some.injEq] at h
    subst h
    have htyv : ty = AR_FIXED ∨ ty = AR_DYNAMIC := by tauto
    refine ⟨by simp, htyv, by simp, ?_, ?_⟩
    · intro c hc
      simp only [List.mem_singleton] at hc
      subst hc
      refine ⟨Nat.zero_le _, dvd_zero 16, hb, ?_⟩
      by_cases hf : ty = AR_FIXED
      · simp only [hf, if_pos]
        norm_num [PAGE_SIZE, USIZE]
      · rw [if_neg hf]
        norm_num [PAGE_SIZE, USIZE]
    · intro i hi c hc
      rw [List.getElem?_eq_none (by simpa using hi)] at hc
      exact Option.noConfusion hc

theorem arenaInv_aralloc (a : Arena) (n : Nat) (mem : Option Nat)
    (ha : ArenaInv a) (hmem : ∀ b, mem = some b → PAGE_SIZE ∣ b) :
    ArenaInv (aralloc a n mem).2 := by
  obtain ⟨hcur, hty, hfix, hchunks, hbeyond⟩ := ha
  have hget : a.chunks[a.currIdx]? = some a.chunks[a.currIdx] :=
    List.getElem?_eq_getElem hcur
  by_cases hfit : (a.chunks[a.currIdx].offset + AR_ALIGN_UP n) % USIZE ≤
      a.chunks[a.currIdx].capacity
  · rw [aralloc_fits a n mem _ hget hfit]
    obtain ⟨hoc, hod, hom, hcu⟩ := hchunks _ (List.getElem_mem hcur)
    refine ⟨by simpa using hcur, hty, by simpa using hfix, ?_, ?_⟩
    · intro c hc
      rcases List.mem_or_eq_of_mem_set hc with hold | hnew
      · exact hchunks c hold
      · subst hnew
        refine ⟨hfit, ?_, hom, hcu⟩
        exact (Nat.dvd_mod_iff sixteen_dvd_USIZE).2 (Nat.dvd_add hod (align_dvd n))
    · intro i hi c hc
      have hi2 : a.currIdx < i := hi
      rw [List.getElem?_set_ne (by omega)] at hc
      exact hbeyond i hi2 c hc
  · rcases hty with hf | hd
    · rw [aralloc_fixed_full a n mem _ hget hfit hf]
      exact ⟨hcur, Or.inl hf, hfix, hchunks, hbeyond⟩
    · match mem with
      | none =>
        rw [aralloc_dynamic_nomem a n _ hget hfit hd]
        exact ⟨hcur, Or.inr hd, hfix, hchunks, hbeyond⟩
      | some b =>
        rw [aralloc_dynamic_grow a n b _ hget hfit hd]
        have hlen : (a.chunks.take (a.currIdx + 1)).length = a.currIdx + 1 := by
          rw [List.length_take]
          omega
        have hfixne : ¬ (AR_DYNAMIC = AR_FIXED) := by decide
        refine ⟨?_, Or.inr hd, ?_, ?_, ?_⟩
        · simp only [List.length_append, hlen, List.length_singleton]
          omega
        · intro hcontra
          rw [hd] at hcontra
          exact absurd hcontra hfixne
        · intro c hc
          rcases List.mem_append.mp hc with hold | hnew
          · exact hchunks c (List.mem_of_mem_take hold)
          · rw [List.mem_singleton] at hnew
            subst hnew
            refine ⟨Nat.le_max_right _ _, align_dvd n, hmem b rfl, ?_⟩
            exact Nat.max_lt.2 ⟨Nat.mod_lt _ (by norm_num [USIZE]), align_lt n⟩
        · intro i hi c hc
          have hi2 : a.currIdx + 1 < i := hi
          rw [List.getElem?_eq_none (by
            simp only [List.length_append, hlen, List.length_singleton]
            omega)] at hc
          exact Option.noConfusion hc

theorem arenaInv_arreset (a : Arena) (ha : ArenaInv a) : ArenaInv (arreset a) := by
  obtain ⟨hcur, hty, hfix, hchunks, hbeyond⟩ := ha
  unfold arreset
  rcases hty with hf | hd
  · rw [if_pos hf]
    obtain ⟨c, hc⟩ := List.length_eq_one.mp (hfix hf)
    rw [hc]
    obtain ⟨_, _, hom, hcu⟩ := hchunks c (by rw [hc]; exact List.mem_singleton_self c)
    have hcur1 : a.currIdx = 0 := by
      rw [hc] at hcur
      simpa using hcur
    refine ⟨by simp [hcur1], Or.inl hf, fun _ => by simp, ?_, ?_⟩
    · intro d hd
      simp only [List.mem_singleton] at hd
      subst hd
      exact ⟨Nat.zero_le _, dvd_zero 16, hom, hcu⟩
    · intro i hi d hdi
      simp only [hcur1] at hi
      rw [List.getElem?_eq_none (by simpa using hi)] at hdi
      exact Option.noConfusion hdi
  · have hne : a.type ≠ AR_FIXED := by rw [hd]; decide
    rw [if_neg hne, if_pos hd]
    have hfixne : ¬ (a.type = AR_FIXED) := hne
    refine ⟨by simpa using Nat.lt_of_le_of_lt (Nat.zero_le _) hcur, Or.inr hd,
      fun hcontra => absurd hcontra hfixne, ?_, ?_⟩
    · intro c hc
      obtain ⟨d, hdm, hdc⟩ := List.mem_map.mp hc
      obtain ⟨_, _, hom, hcu⟩ := hchunks d hdm
      subst hdc
      exact ⟨Nat.zero_le _, dvd_zero 16, hom, hcu⟩
    · intro i _ c hc
      rw [List.getElem?_map] at hc
      match hdi : a.chunks[i]? with
      | none => rw [hdi] at hc; exact Option.noConfusion hc
      | some d =>
        rw [hdi] at hc
        have hc2 : some { d with offset := 0 } = some c := hc
        simp only [Option.some.injEq] at hc2
        rw [← hc2]

/-- Every arena state reachable through the public API satisfies the
well-formedness invariant. -/
theorem reachable_inv (a : Arena) (h : Reachable a) : ArenaInv a := by
  induction h with
  | init ty base a hb harinit => exact arenaInv_arinit ty base a hb harinit
  | alloc a n mem _ hmem ih => exact arenaInv_aralloc a n mem ih hmem
  | reset a _ ih => exact arenaInv_arreset a ih

/-- Shared helper: a request whose aligned size is zero always succeeds,
returns the current position, and leaves the arena untouched. -/
theorem aralloc_aligned_zero (a : Arena) (n : Nat) (mem : Option Nat)
    (ha : ArenaInv a) (hz : AR_ALIGN_UP n = 0) :
    ∀ curr, a.chunks[a.currIdx]? = some curr →
      aralloc a n mem = (some ((curr.memory + curr.offset) % USIZE), a) := by
  obtain ⟨hcur, _, _, hchunks, _⟩ := ha
  intro curr hget
  have hmem2 : curr ∈ a.chunks := by
    have he := List.getElem?_eq_getElem hcur
    rw [he] at hget
    simp only [Option.some.injEq] at hget
    rw [← hget]
    exact List.getElem_mem hcur
  obtain ⟨hoc, _, _, hcu⟩ := hchunks curr hmem2
  have hofflt : curr.offset < USIZE := lt_of_le_of_lt hoc hcu
  have hfit : (curr.offset + AR_ALIGN_UP n) % USIZE ≤ curr.capacity := by
    rw [hz, Nat.add_zero, Nat.mod_eq_of_lt hofflt]
    exact hoc
  have hres := aralloc_fits a n mem curr hget hfit
  rw [hz, Nat.add_zero, Nat.mod_eq_of_lt hofflt] at hres
  rw [hres]
  have hcc : ({ curr with offset := curr.offset } : Chunk) = curr := rfl
  rw [hcc, set_getElem?_same _ _ _ hget]

/-! ### The claims -/

/-- C10: for every type argument outside the two enumerators, `arinit`
returns `NULL` and `chunk_init` returns `NULL`: no arena handle and no
backing region is ever created. -/
theorem C10_invalid_type_rejected (ty size : Nat) (mem : Option Nat)
    (h1 : ty ≠ AR_FIXED) (h2 : ty ≠ AR_DYNAMIC) :
    arinit ty mem = none ∧ chunk_init ty size mem = none := by
  unfold arinit chunk_init
  rw [if_pos ⟨h1, h2⟩, if_pos ⟨h1, h2⟩]
  exact ⟨rfl, rfl⟩

/-- C10 witness: the concrete out-of-range enumerator value 2. -/
theorem C10_witness :
    arinit 2 (some 4096) = none ∧ chunk_init 2 4096 (some 4096) = none :=
  C10_invalid_type_rejected 2 4096 (some 4096) (by decide) (by decide)

/-- C5 counterexample: the claim says that whenever the sole region of an
`AR_FIXED` arena cannot satisfy a request, the call fails and the arena is
untouched.  The code's capacity check is the wrapped `size_t` comparison
`curr->offset + size <= curr->capacity`: on a fixed arena at offset 48, a
request of `2^64 - 32` bytes (aligned unchanged) is far beyond the
65536-byte capacity, yet `48 + (2^64 - 32)` wraps to 16 ≤ 65536, so the
call SUCCEEDS and mutates the offset down to 16. -/
theorem C5_counterexample :
    (let a1 := (aralloc arenaF0 48 none).2
     a1.type = AR_FIXED ∧
     a1.chunks[0]!.offset = 48 ∧
     a1.chunks[0]!.capacity = 65536 ∧
     AR_ALIGN_UP (2 ^ 64 - 32) = 2 ^ 64 - 32 ∧
     65536 < 48 + (2 ^ 64 - 32) ∧
     (aralloc a1 (2 ^ 64 - 32) none).1.isSome = true ∧
     (aralloc a1 (2 ^ 64 - 32) none).2.chunks[0]!.offset = 16) := by
  decide

/-- C5 amended: on a reachable `AR_FIXED` arena whose sole region cannot
satisfy the request — `offset + aligned_size` exceeds the capacity —
PROVIDED that sum does not overflow `size_t` (without this proviso the
wrapped comparison can pass spuriously and the call succeeds), `aralloc`
returns `NULL`, the arena — chain, offsets, current pointer, creation
count — is exactly its pre-call value, and the chain has exactly one
region before and after. -/
theorem C5_fixed_fails_unchanged (a : Arena) (n : Nat) (mem : Option Nat)
    (ha : Reachable a) (hty : a.type = AR_FIXED) (curr : Chunk)
    (hget : a.chunks[a.currIdx]? = some curr)
    (hnowrap : curr.offset + AR_ALIGN_UP n < USIZE)
    (hcant : curr.capacity < curr.offset + AR_ALIGN_UP n) :
    aralloc a n mem = (none, a) ∧ a.chunks.length = 1 ∧
      (aralloc a n mem).2.chunks.length = 1 := by
  obtain ⟨_, _, hfix, _, _⟩ := reachable_inv a ha
  have hfit : ¬ (curr.offset + AR_ALIGN_UP n) % USIZE ≤ curr.capacity := by
    rw [Nat.mod_eq_of_lt hnowrap]
    omega
  have hres := aralloc_fixed_full a n mem curr hget hfit hty
  refine ⟨hres, hfix hty, ?_⟩
  rw [hres]
  exact hfix hty

/-- C5 witness: a fresh fixed arena rejects a 65537-byte request (aligned
65552 > 65536, no overflow) untouched. -/
theorem C5_witness :
    aralloc arenaF0 65537 none = (none, arenaF0) ∧
      arenaF0.chunks.length = 1 ∧
      (aralloc arenaF0 65537 none).2.chunks.length = 1 :=
  C5_fixed_fails_unchanged arenaF0 65537 none
    (Reachable.init AR_FIXED 4096 arenaF0 (by decide) (by decide))
    (by decide) { memory := 4096, capacity := 65536, offset := 0 }
    (by decide) (by decide) (by decide)

/-- C6: on an `AR_DYNAMIC` arena whose current region cannot satisfy the
request, if region creation fails (the OS refuses the mapping), `aralloc`
returns `NULL` and the arena is exactly its pre-call state: the failed
region is never linked, `curr` is unchanged, and no offset moves. -/
theorem C6_dynamic_oom_unchanged (a : Arena) (n : Nat) (curr : Chunk)
    (hty : a.type = AR_DYNAMIC)
    (hget : a.chunks[a.currIdx]? = some curr)
    (hfit : ¬ (curr.offset + AR_ALIGN_UP n) % USIZE ≤ curr.capacity) :
    aralloc a n none = (none, a) :=
  aralloc_dynamic_nomem a n curr hget hfit hty

/-- C6 witness: a fresh dynamic arena hit with a 4097-byte request while
the OS refuses the new mapping stays untouched. -/
theorem C6_witness : aralloc arenaD0 4097 none = (none, arenaD0) :=
  C6_dynamic_oom_unchanged arenaD0 4097
    { memory := 4096, capacity := 4096, offset := 0 }
    (by decide) (by decide) (by decide)

/-- C2 counterexample: the claim says a size whose alignment overflows
`size_t` must fail (`InvalidSize`).  The code has no such check: on a fresh
fixed arena, requesting `2^64 - 1` bytes SUCCEEDS — `AR_ALIGN_UP` wraps the
size to 0 and the call returns the current position, consuming nothing. -/
theorem C2_counterexample :
    2 ^ 64 - 1 < USIZE ∧ USIZE - 15 ≤ 2 ^ 64 - 1 ∧
    AR_ALIGN_UP (2 ^ 64 - 1) = 0 ∧
    aralloc arenaF0 (2 ^ 64 - 1) none = (some 4096, arenaF0) := by decide

/-- C2 amended: for every size in the 15-value band where aligning
overflows `size_t` (`2^64 - 15 ≤ size < 2^64`), the aligned size wraps to
0 and `aralloc` on any well-formed arena succeeds, returning the current
position and consuming zero bytes (arena unchanged) — a wrapped-around
zero-byte allocation rather than a defined `InvalidSize` failure. -/
theorem C2_overflow_wraps (a : Arena) (n : Nat) (mem : Option Nat)
    (ha : ArenaInv a) (h1 : USIZE - 15 ≤ n) (h2 : n < USIZE) :
    AR_ALIGN_UP n = 0 ∧
    ∀ curr, a.chunks[a.currIdx]? = some curr →
      aralloc a n mem = (some ((curr.memory + curr.offset) % USIZE), a) := by
  have hz := align_wrap_zero n h1 h2
  exact ⟨hz, aralloc_aligned_zero a n mem ha hz⟩

/-- C2 witness: the amended statement at the concrete size `2^64 - 1` on a
fresh fixed arena. -/
theorem C2_witness :
    AR_ALIGN_UP (2 ^ 64 - 1) = 0 ∧
    aralloc arenaF0 (2 ^ 64 - 1) none = (some 4096, arenaF0) := by
  obtain ⟨hz, hall⟩ := C2_overflow_wraps arenaF0 (2 ^ 64 - 1) none
    (arenaInv_arinit AR_FIXED 4096 arenaF0 (by decide) (by decide))
    (by decide) (by decide)
  refine ⟨hz, ?_⟩
  have hres := hall { memory := 4096, capacity := 65536, offset := 0 } (by decide)
  rw [hres]
  decide

/-- C3 counterexample: the claim says `allocate(a, 0)` returns a pointer
distinct from the arena's base and advances the offset by 16.  In the code
`AR_ALIGN_UP 0 = 0` (the macro has no floor): on a fresh arena the call
returns exactly the base address and advances the offset by 0. -/
theorem C3_counterexample :
    AR_ALIGN_UP 0 = 0 ∧
    arenaF0.chunks = [{ memory := 4096, capacity := 65536, offset := 0 }] ∧
    aralloc arenaF0 0 none = (some 4096, arenaF0) := by decide

/-- C3 amended: `allocate(a, 0)` is indeed accepted without any
special-case rejection and succeeds on a well-formed arena with room, but
it rounds 0 to 0 (not 16): it returns the pointer at the current position
and consumes zero bytes, so the arena is unchanged; on a fresh arena the
pointer equals the base, and repeated zero-size calls return the same
pointer. -/
theorem C3_zero_size (a : Arena) (mem : Option Nat) (ha : ArenaInv a) :
    ∀ curr, a.chunks[a.currIdx]? = some curr →
      aralloc a 0 mem = (some ((curr.memory + curr.offset) % USIZE), a) :=
  aralloc_aligned_zero a 0 mem ha (by decide)

/-- C3 witness: the amended statement on a fresh fixed arena. -/
theorem C3_witness : aralloc arenaF0 0 none = (some 4096, arenaF0) := by
  have hres := C3_zero_size arenaF0 none
    (arenaInv_arinit AR_FIXED 4096 arenaF0 (by decide) (by decide))
    { memory := 4096, capacity := 65536, offset := 0 } (by decide)
  rw [hres]
  decide

/-- C4 counterexample: the claim says a grown region's capacity is
`max(curr.capacity * 2, size rounded to page granularity)`, hence a page
multiple.  Growing a fresh dynamic arena (4096-byte chunk) by a 12000-byte
request produces a chunk of capacity 12000 — not a multiple of `PAGE_SIZE`
and not the claimed `max(8192, 12288) = 12288`. -/
theorem C4_counterexample :
    (aralloc arenaD0 12000 (some 8192)).2.chunks =
      [{ memory := 4096, capacity := 4096, offset := 0 },
       { memory := 8192, capacity := 12000, offset := 12000 }] ∧
    ¬ (PAGE_SIZE ∣ 12000) ∧
    (12000 : Nat) ≠ max (4096 * 2) ((12000 + PAGE_SIZE - 1) / PAGE_SIZE * PAGE_SIZE) := by
  decide

/-- C4 amended: when an `AR_DYNAMIC` arena grows, the new region's
capacity is `max(curr.capacity * 2 mod 2^64, aligned_size)`, where
`aligned_size` is the request rounded to the 16-byte boundary (NOT to page
granularity); it is always at least the aligned size, and the aligned size
is a multiple of 16 (not, in general, of the page size). -/
theorem C4_growth_capacity (a : Arena) (n b : Nat) (curr : Chunk)
    (hget : a.chunks[a.currIdx]? = some curr)
    (hfit : ¬ (curr.offset + AR_ALIGN_UP n) % USIZE ≤ curr.capacity)
    (hty : a.type = AR_DYNAMIC) :
    ∀ cnew, (aralloc a n (some b)).2.chunks.getLast? = some cnew →
      cnew.capacity = max ((curr.capacity * 2) % USIZE) (AR_ALIGN_UP n) ∧
      AR_ALIGN_UP n ≤ cnew.capacity ∧ 16 ∣ AR_ALIGN_UP n := by
  intro cnew hlast
  rw [aralloc_dynamic_grow a n b curr hget hfit hty] at hlast
  have hlast2 : (a.chunks.take (a.currIdx + 1) ++
      [({ memory := b,
          capacity := max ((curr.capacity * 2) % USIZE) (AR_ALIGN_UP n),
          offset := AR_ALIGN_UP n } : Chunk)]).getLast? = some cnew := hlast
  rw [List.getLast?_concat] at hlast2
  simp only [Option.some.injEq] at hlast2
  rw [← hlast2]
  exact ⟨rfl, Nat.le_max_right _ _, align_dvd n⟩

/-- C4 witness: the amended formula at the 12000-byte growth of a fresh
dynamic arena: capacity 12000 = max(8192, 12000). -/
theorem C4_witness :
    (12000 : Nat) = max ((4096 * 2) % USIZE) (AR_ALIGN_UP 12000) ∧
    AR_ALIGN_UP 12000 ≤ 12000 ∧ (16 : Nat) ∣ AR_ALIGN_UP 12000 :=
  C4_growth_capacity arenaD0 12000 8192
    { memory := 4096, capacity := 4096, offset := 0 }
    (by decide) (by decide) (by decide)
    { memory := 8192, capacity := 12000, offset := 12000 } (by decide)

/-- C7: a growth step of an `AR_DYNAMIC` arena only rewires the old
current chunk's `next` and the arena's `curr` pointer: every chunk up to
and including the old current one is exactly unchanged (same base, same
capacity, same offset), so pointers previously handed out from those
chunks stay valid and unmoved — no data is copied or relocated. -/
theorem C7_growth_frame (a : Arena) (n b : Nat) (curr : Chunk)
    (hget : a.chunks[a.currIdx]? = some curr)
    (hfit : ¬ (curr.offset + AR_ALIGN_UP n) % USIZE ≤ curr.capacity)
    (hty : a.type = AR_DYNAMIC) :
    (aralloc a n (some b)).2.currIdx = a.currIdx + 1 ∧
    ∀ i, i ≤ a.currIdx → (aralloc a n (some b)).2.chunks[i]? = a.chunks[i]? := by
  have hlt : a.currIdx < a.chunks.length := by
    by_contra hn
    rw [List.getElem?_eq_none (by omega)] at hget
    exact Option.noConfusion hget
  rw [aralloc_dynamic_grow a n b curr hget hfit hty]
  refine ⟨rfl, ?_⟩
  intro i hi
  have hitake : i < (a.chunks.take (a.currIdx + 1)).length := by
    rw [List.length_take]
    omega
  have happ : (a.chunks.take (a.currIdx + 1) ++
      [{ memory := b,
         capacity := max ((curr.capacity * 2) % USIZE) (AR_ALIGN_UP n),
         offset := AR_ALIGN_UP n }])[i]? = (a.chunks.take (a.currIdx + 1))[i]? :=
    List.getElem?_append_left hitake
  rw [happ]
  have hi1 : i < a.currIdx + 1 := by omega
  simp [List.getElem?_take, hi1]

/-- C7 witness: growing a fresh dynamic arena with a 4097-byte request
moves `curr` forward by one and leaves the head chunk untouched. -/
theorem C7_witness :
    (aralloc arenaD0 4097 (some 8192)).2.currIdx = arenaD0.currIdx + 1 ∧
    (aralloc arenaD0 4097 (some 8192)).2.chunks[0]? = arenaD0.chunks[0]? := by
  obtain ⟨h1, h2⟩ := C7_growth_frame arenaD0 4097 8192
    { memory := 4096, capacity := 4096, offset := 0 }
    (by decide) (by decide) (by decide)
  exact ⟨h1, h2 0 (by decide)⟩

/-- C8: every pointer successfully returned by `aralloc` on a reachable
arena is 16-byte aligned: sizes are aligned before the capacity check, so
every offset stays a multiple of 16, and chunk bases are page-aligned. -/
theorem C8_returned_pointer_aligned (a : Arena) (n : Nat) (mem : Option Nat)
    (p : Nat) (ha : Reachable a) (hmem : ∀ b, mem = some b → PAGE_SIZE ∣ b)
    (hp : (aralloc a n mem).1 = some p) : 16 ∣ p := by
  obtain ⟨hcur, hty, hfix, hchunks, hbeyond⟩ := reachable_inv a ha
  have hget : a.chunks[a.currIdx]? = some a.chunks[a.currIdx] :=
    List.getElem?_eq_getElem hcur
  obtain ⟨hoc, hod, hom, hcu⟩ := hchunks _ (List.getElem_mem hcur)
  have h16p : (16 : Nat) ∣ PAGE_SIZE := by decide
  by_cases hfit : (a.chunks[a.currIdx].offset + AR_ALIGN_UP n) % USIZE ≤
      a.chunks[a.currIdx].capacity
  · rw [aralloc_fits a n mem _ hget hfit] at hp
    have hp2 : some ((a.chunks[a.currIdx].memory + a.chunks[a.currIdx].offset)
        % USIZE) = some p := hp
    simp only [Option.some.injEq] at hp2
    rw [← hp2]
    exact (Nat.dvd_mod_iff sixteen_dvd_USIZE).2
      (Nat.dvd_add (dvd_trans h16p hom) hod)
  · rcases hty with hf | hd
    · rw [aralloc_fixed_full a n mem _ hget hfit hf] at hp
      exact Option.noConfusion hp
    · match mem with
      | none =>
        rw [aralloc_dynamic_nomem a n _ hget hfit hd] at hp
        exact Option.noConfusion hp
      | some b =>
        rw [aralloc_dynamic_grow a n b _ hget hfit hd] at hp
        have hp2 : some (b % USIZE) = some p := hp
        simp only [Option.some.injEq] at hp2
        rw [← hp2]
        exact (Nat.dvd_mod_iff sixteen_dvd_USIZE).2 (dvd_trans h16p (hmem b rfl))

/-- C8 witness: the pointer 4096 returned for a 24-byte request on a fresh
fixed arena is a multiple of 16. -/
theorem C8_witness :
    (aralloc arenaF0 24 none).1 = some 4096 ∧ (16 : Nat) ∣ 4096 :=
  ⟨by decide,
   C8_returned_pointer_aligned arenaF0 24 none 4096
     (Reachable.init AR_FIXED 4096 arenaF0 (by decide) (by decide))
     (fun b hb => Option.noConfusion hb) (by decide)⟩

/-- C9 counterexample: the claim says offsets never decrease between
allocations without a reset.  With a wrap-inducing size the `size_t`
comparison passes spuriously: after an allocation brings the offset to 32,
a request of `2^64 - 16` bytes (aligned unchanged) "succeeds" and the
offset moves DOWN from 32 to 16 — no reset intervened. -/
theorem C9_counterexample :
    ((aralloc arenaF0 32 none).2.chunks[0]!).offset = 32 ∧
    (aralloc (aralloc arenaF0 32 none).2 (2 ^ 64 - 16) none).1.isSome = true ∧
    ((aralloc (aralloc arenaF0 32 none).2 (2 ^ 64 - 16) none).2.chunks[0]!).offset
      = 16 := by
  decide

/-- C9 amended: in every reachable state each region satisfies
`offset ≤ capacity` (this half of the claim holds unconditionally, the
wrapped comparison preserves it), and an allocation leaves every region's
offset non-decreasing PROVIDED the current region's
`offset + aligned_size` does not overflow `size_t`; wrap-inducing sizes
can decrease the offset. -/
theorem C9_offset_bounds_monotone (a : Arena) (ha : Reachable a) :
    (∀ c ∈ a.chunks, c.offset ≤ c.capacity) ∧
    (∀ (n : Nat) (mem : Option Nat) (i : Nat) (c cnew : Chunk),
      (∀ curr, a.chunks[a.currIdx]? = some curr →
        curr.offset + AR_ALIGN_UP n < USIZE) →
      a.chunks[i]? = some c →
      (aralloc a n mem).2.chunks[i]? = some cnew →
      c.offset ≤ cnew.offset) := by
  obtain ⟨hcur, hty, hfix, hchunks, hbeyond⟩ := reachable_inv a ha
  refine ⟨fun c hc => (hchunks c hc).1, ?_⟩
  intro n mem i c cnew hnw hold hnew
  have hget : a.chunks[a.currIdx]? = some a.chunks[a.currIdx] :=
    List.getElem?_eq_getElem hcur
  by_cases hfit : (a.chunks[a.currIdx].offset + AR_ALIGN_UP n) % USIZE ≤
      a.chunks[a.currIdx].capacity
  · rw [aralloc_fits a n mem _ hget hfit] at hnew
    have hnew2 : (a.chunks.set a.currIdx
        { a.chunks[a.currIdx] with
          offset := (a.chunks[a.currIdx].offset + AR_ALIGN_UP n) % USIZE })[i]?
        = some cnew := hnew
    by_cases hi : a.currIdx = i
    · subst hi
      rw [List.getElem?_set_self hcur] at hnew2
      simp only [Option.some.injEq] at hnew2
      rw [hget] at hold
      simp only [Option.some.injEq] at hold
      rw [← hnew2, ← hold]
      have hlt := hnw _ hget
      rw [Nat.mod_eq_of_lt hlt]
      exact Nat.le_add_right _ _
    · rw [List.getElem?_set_ne hi] at hnew2
      rw [hold] at hnew2
      simp only [Option.some.injEq] at hnew2
      rw [hnew2]
  · rcases hty with hf | hd
    · rw [aralloc_fixed_full a n mem _ hget hfit hf] at hnew
      have hnew2 : a.chunks[i]? = some cnew := hnew
      rw [hold] at hnew2
      simp only [Option.some.injEq] at hnew2
      rw [hnew2]
    · match mem with
      | none =>
        rw [aralloc_dynamic_nomem a n _ hget hfit hd] at hnew
        have hnew2 : a.chunks[i]? = some cnew := hnew
        rw [hold] at hnew2
        simp only [Option.some.injEq] at hnew2
        rw [hnew2]
      | some b =>
        rw [aralloc_dynamic_grow a n b _ hget hfit hd] at hnew
        have hnew2 : (a.chunks.take (a.currIdx + 1) ++
            [({ memory := b,
                capacity := max ((a.chunks[a.currIdx].capacity * 2) % USIZE)
                  (AR_ALIGN_UP n),
                offset := AR_ALIGN_UP n } : Chunk)])[i]? = some cnew := hnew
        have hlen : (a.chunks.take (a.currIdx + 1)).length = a.currIdx + 1 := by
          rw [List.length_take]
          omega
        by_cases hile : i < a.currIdx + 1
        · rw [List.getElem?_append_left (by rw [hlen]; omega)] at hnew2
          simp only [List.getElem?_take, hile, if_pos] at hnew2
          rw [hold] at hnew2
          simp only [Option.some.injEq] at hnew2
          rw [hnew2]
        · rw [List.getElem?_append_right (by rw [hlen]; omega)] at hnew2
          rw [hlen] at hnew2
          by_cases hieq : i = a.currIdx + 1
          · have hz : i - (a.currIdx + 1) = 0 := by omega
            rw [hz] at hnew2
            have hnew3 : some
                ({ memory := b,
                   capacity := max ((a.chunks[a.currIdx].capacity * 2) % USIZE)
                     (AR_ALIGN_UP n),
                   offset := AR_ALIGN_UP n } : Chunk) = some cnew := hnew2
            simp only [Option.some.injEq] at hnew3
            rw [hbeyond i (by omega) c hold, ← hnew3]
            exact Nat.zero_le _
          · rw [List.getElem?_eq_none (by
              simp only [List.length_singleton]
              omega)] at hnew2
            exact Option.noConfusion hnew2

/-- C9 witness: the amended statement on a fresh fixed arena and a
non-overflowing 16-byte allocation. -/
theorem C9_witness :
    (arenaF0.chunks[0]!).offset ≤ (arenaF0.chunks[0]!).capacity ∧
    (arenaF0.chunks[0]!).offset ≤
      ((aralloc arenaF0 16 none).2.chunks[0]!).offset := by
  obtain ⟨h1, h2⟩ := C9_offset_bounds_monotone arenaF0
    (Reachable.init AR_FIXED 4096 arenaF0 (by decide) (by decide))
  refine ⟨h1 _ (by decide), ?_⟩
  refine h2 16 none 0 (arenaF0.chunks[0]!) ((aralloc arenaF0 16 none).2.chunks[0]!)
    ?_ (by decide) (by decide)
  intro curr hcu
  have hcu2 : some ({ memory := 4096, capacity := 65536, offset := 0 } : Chunk)
      = some curr := hcu
  injection hcu2 with hcu3
  rw [← hcu3]
  decide

/-- C1: the claim (and the spec's reset-reusability property) says that
after growth and a reset, allocations fitting the retained total capacity
create no new region.  The code's growth path never follows an existing
`curr->next`: it always creates a fresh chunk and OVERWRITES `curr->next`
with it, orphaning (and leaking) the previously grown chunk.  Concretely:
grow a dynamic arena to two chunks (4096 + 8192 bytes, creation count 2),
reset, allocate 4096 then 16 bytes (sum 4112 ≤ 12288 = total prior
capacity): the creation count rises to 3 and the chain's bases are
[4096, 12288] — the 8192-byte chunk created during prior growth is gone
from the chain instead of being reused. -/
theorem C1_reset_reuse_broken :
    (let a2 := (aralloc (aralloc arenaD0 4096 none).2 16 (some 8192)).2
     let a5 := (aralloc (aralloc (arreset a2) 4096 none).2 16 (some 12288)).2
     a2.created = 2 ∧ a2.chunks.length = 2 ∧
     a2.chunks.map Chunk.capacity = [4096, 8192] ∧
     AR_ALIGN_UP 4096 + AR_ALIGN_UP 16 ≤ 4096 + 8192 ∧
     a5.created = 3 ∧ a5.chunks.map Chunk.memory = [4096, 12288]) := by
  decide

end Aralloc
